import Mathlib

/-!
# Locale resolution for HTTP requests (package `locale`)

A shallow embedding of `handler.go` and `locale.go`.

* A Go string is a sequence of bytes.  Every string operation the package uses
  (comparison, concatenation, `strings.HasPrefix`, `strings.TrimPrefix`,
  `strings.Replace` of a one-byte pattern) acts element by element, so a string is
  embedded as the list of its elements, `Str`.
* `strings.ToUpper` belongs to the Go standard library; it is a parameter
  (`toUpper`) of every definition that reaches it.
* `language.Tag` is seen through the two things the package reads from it, the
  string forms of `tag.Base()` and `tag.Region()`.  A `language.Matcher` is seen
  through `language.MatchStrings(matcher, candidates...)`.
* The handler's effects are made explicit: the `ResponseWriter` records the
  cookies written and the redirect issued, and `Handler` returns it together with
  the request handed to `next.ServeHTTP`, when that call is reached.
-/

namespace Locale

/-- Strings of the program: a Go string, element by element. -/
abbrev Str := List Char

/-- Go map with string keys, kept as an association list: `m[k]` with its `ok` flag. -/
def lookup {β : Type} (k : Str) : List (Str × β) → Option β
  | [] => none
  | (k', v) :: m => if k' = k then some v else lookup k m

/-- Go `m[k] = v` on a map kept as an association list. -/
def insert {β : Type} (k : Str) (v : β) (m : List (Str × β)) : List (Str × β) :=
  (k, v) :: m.filter (fun e => decide (e.1 ≠ k))

/-- Go `delete(m, k)` on a map kept as an association list. -/
def erase {β : Type} (k : Str) (m : List (Str × β)) : List (Str × β) :=
  m.filter (fun e => decide (e.1 ≠ k))

/-- The `url.Values` that `URL.Query()` returns.  `url.ParseQuery` only ever appends to
the slice of a key, so a key that is present has a first value: the slice is kept as
that first value and the values after it. -/
abbrev Values := List (Str × (Str × List Str))

/-- Type `http.Header`: a map from header name to its values. -/
abbrev Header := List (Str × List Str)

/-- Method `Header.Get`: the first value of the header, the empty string when there is none. -/
def Header.Get (h : Header) (key : Str) : Str :=
  match lookup key h with
  | some (v :: _) => v
  | _ => []

/-- Method `Header.Set`: the header is replaced by the single value. -/
def Header.Set (h : Header) (key value : Str) : Header :=
  insert key [value] h

/-- Type `http.Cookie`, with the fields the package writes.  `Expires` is kept as the number
of months added to the time of writing (`time.Now().AddDate(0, 1, 0)`). -/
structure Cookie where
  Name : Str
  Value : Str
  ExpiresMonths : Nat
  Path : Str
deriving DecidableEq, Repr

/-- Type `http.Request`, with the parts the package reads and writes: `r.URL.Path`, the
parsed query `r.URL.Query()`, `r.Header` and the cookies the request carries, by name. -/
structure Request where
  Path : Str
  Query : Values
  Header : Header
  Cookies : List (Str × Str)
deriving DecidableEq, Repr

/-- Method `r.Cookie(name)`: the value of the first cookie of that name, `none` for
`http.ErrNoCookie`. -/
def Request.Cookie (r : Request) (name : Str) : Option Str :=
  lookup name r.Cookies

/-- Type `http.ResponseWriter`, as the effects the package has on it: the cookies passed to
`http.SetCookie`, and the target and status code passed to `http.Redirect`. -/
structure ResponseWriter where
  SetCookies : List Cookie
  Redirected : Option (Str × Nat)
deriving DecidableEq, Repr

/-- Type `language.Tag`, as the string forms of `tag.Base()` and `tag.Region()`. -/
structure Tag where
  Base : Str
  Region : Str
deriving DecidableEq, Repr

/-- Type `language.Matcher`, as `language.MatchStrings(matcher, candidates...)`. -/
abbrev Matcher := List Str → Tag

def QueryLanguage : Str := "lang".toList
def QueryRegion : Str := "region".toList
def QueryLocale : Str := "locale".toList
def CookieName : Str := "locale".toList

def GeoipCountryHeaders : List Str :=
  ["CloudFront-Viewer-Country".toList, "CF-IPCountry".toList, "GEOIP_COUNTRY_CODE".toList]

def StatusFound : Nat := 302

/-- Function `strings.HasPrefix`. -/
def HasPrefix (s p : Str) : Bool := p.isPrefixOf s

/-- Function `strings.TrimPrefix`. -/
def TrimPrefix (s p : Str) : Str :=
  if HasPrefix s p then s.drop p.length else s

/-- Function `strings.Replace(s, old, new, -1)` for one-byte `old` and `new`. -/
def Replace (s : Str) (old new : Char) : Str :=
  s.map (fun c => if c = old then new else c)

/-- The loop of `GeoipCountryCode` over the header names. -/
def GeoipCountryCode.loop (r : Request) : List Str → Str
  | [] => "unk".toList
  | header :: rest =>
    let code := r.Header.Get header
    if code ≠ [] then code else GeoipCountryCode.loop r rest

/-- Get hosting provider inferred country code according to client IP address. -/
def GeoipCountryCode (r : Request) : Str :=
  GeoipCountryCode.loop r GeoipCountryHeaders

/-- Retrieve locale from request. -/
def GetRequestLocale (r : Request) : Str :=
  r.Header.Get "X-Locale".toList

/-- Save locale with request.  Overwrites X-Locale header. -/
def SetRequestLocale (r : Request) (locale : Str) : Request :=
  { r with Header := r.Header.Set "X-Locale".toList locale }

/-- Retrieve URL path without locale from request. -/
def GetRequestDelocalizedPath (r : Request) : Str :=
  r.Header.Get "X-Delocalized-Path".toList

/-- Save URL path without locale with request.  Overwrites X-Delocalized-Path header. -/
def SetRequestDelocalizedPath (r : Request) (path : Str) : Request :=
  { r with Header := r.Header.Set "X-Delocalized-Path".toList path }

/-- Remember user-specified locale override for a month. -/
def SetCookieLocale (w : ResponseWriter) (locale : Str) : ResponseWriter :=
  let c : Cookie :=
    { Name := "locale".toList, Value := locale, ExpiresMonths := 1, Path := "/".toList }
  { w with SetCookies := w.SetCookies ++ [c] }

/-- Function `http.Redirect`, as the target and the status code it is given. -/
def Redirect (w : ResponseWriter) (url : Str) (code : Nat) : ResponseWriter :=
  { w with Redirected := some (url, code) }

/-- Map certain country whom group with their motherland (or empire). -/
def RemapCountryCode (toUpper : Str → Str) (code : Str) : Str :=
  let code := toUpper code
  if code ∈ ["GB", "UK", "IE", "JE", "IM", "GG", "PN", "AG", "BM", "IO", "VG", "KY", "FK",
      "GI", "MS", "SH", "GS", "TC", "BQ", "BZ"].map String.toList then
    "GB".toList
  else if code ∈ ["US", "GU", "PR", "AS", "MP", "VI", "UM", "PU", "MI"].map String.toList then
    "US".toList
  else if code ∈ ["AU", "NZ", "CX", "CC", "HM", "NF"].map String.toList then
    "AU".toList
  else
    code

/-- Encode simplified string representation of a locale. -/
def BaseRegion (tag : Tag) : Str :=
  tag.Base ++ "-".toList ++ tag.Region

/-- The candidate list that `DeduceLanguage` builds and passes to `language.MatchStrings`. -/
def DeduceLanguage.candidates (toUpper : Str → Str) (r : Request) : List Str := Id.run do
  let geoipCountry := RemapCountryCode toUpper (GeoipCountryCode r)
  let mut candidates : List Str := []
  let mut queryLanguage : Str := []
  let mut queryRegion : Str := []
  let query := r.Query
  if let some l := lookup QueryLocale query then
    candidates := candidates ++ [l.1]
  if let some l := lookup QueryLanguage query then
    queryLanguage := l.1
  if let some r := lookup QueryRegion query then
    queryRegion := RemapCountryCode toUpper r.1
    if queryLanguage ≠ [] then
      candidates := candidates ++ [queryLanguage ++ "-".toList ++ queryRegion]
  if queryLanguage ≠ [] then
    candidates := candidates ++ [queryLanguage ++ "-".toList ++ geoipCountry]
  if queryRegion ≠ [] then
    candidates := candidates ++ ["und-".toList ++ queryRegion]
  let acceptLanguageHeader := r.Header.Get "Accept-Language".toList
  if acceptLanguageHeader ≠ [] then
    candidates := candidates ++ [acceptLanguageHeader]
  candidates := candidates ++ ["und-".toList ++ geoipCountry]
  return candidates

/-- Infer the language based on query params, cookies, request headers, or geoIP.
Intentionally ignores X-Locale. -/
def DeduceLanguage (toUpper : Str → Str) (matcher : Matcher) (r : Request) : Tag :=
  matcher (DeduceLanguage.candidates toUpper r)

/-- Find a prefix among many. -/
def matchPrefix (s : Str) : List Str → Option Str
  | [] => none
  | p :: prefixes => if HasPrefix s p then some p else matchPrefix s prefixes

/-- Remove any of these prefixes from a string. -/
def trimPrefixes (s : Str) (prefixes : List Str) : Str :=
  match matchPrefix s prefixes with
  | some p => TrimPrefix s p
  | none => s

def contains (locales : List Str) (locale : Str) : Bool :=
  match locales with
  | [] => false
  | l :: rest => if l = locale then true else contains rest locale

/-- What a handler of the chain leaves behind: the response writer, and the request
handed to `next.ServeHTTP` when that call is reached. -/
structure Served where
  w : ResponseWriter
  next : Option Request
deriving DecidableEq, Repr

/-- Remove the locale part from the URL Path.  See SetRequestDelocalizedPath(). -/
def StripLocalePrefix (w : ResponseWriter) (r : Request) : Served :=
  let p := GetRequestDelocalizedPath r
  let r := if p ≠ [] then { r with Path := p } else r
  { w := w, next := some r }

/-- The loop that opens `Handler`: one path prefix per supported locale. -/
def Handler.pathPrefixes (locales : List Str) : List Str :=
  locales.map (fun locale => "/".toList ++ locale)

/-- Chaining HTTP handler that alters request per query parameters, cookies,
locale-prefixed URL paths, or headers. -/
def Handler (toUpper : Str → Str) (locales : List Str) (matcher : Matcher)
    (w : ResponseWriter) (r : Request) : Served := Id.run do
  let pathPrefixes := Handler.pathPrefixes locales
  let mut w := w
  let mut r := r
  let mut locale : Str := []
  let mut pathLocale : Str := []
  let mut delocalizedPath := r.Path
  if let some p := matchPrefix r.Path pathPrefixes then
    delocalizedPath := TrimPrefix r.Path p
    pathLocale := TrimPrefix p "/".toList
  if let some q := lookup "locale".toList r.Query then
    if (q.1 :: q.2).length > 0 then
      let mut localeQuery := q.1
      localeQuery := Replace localeQuery '_' '-'
      if contains locales localeQuery then
        locale := localeQuery
        w := SetCookieLocale w locale
        if locale ≠ pathLocale then
          return { w := Redirect w ("/".toList ++ locale ++ delocalizedPath) StatusFound,
                   next := none }
  if locale = [] then
    locale := pathLocale
  if locale = [] then
    if let some cookie := r.Cookie CookieName then
      locale := cookie
      if locale ≠ pathLocale then
        return { w := Redirect w ("/".toList ++ locale ++ delocalizedPath) StatusFound,
                 next := none }
  if locale = [] then
    locale := BaseRegion (DeduceLanguage toUpper matcher r)
  r := SetRequestLocale r locale
  r := SetRequestDelocalizedPath r delocalizedPath
  r := { r with Path := "/".toList ++ locale ++ delocalizedPath }
  return { w := w, next := some r }

/-- The value of `pathLocale` in `Handler` after its prefix test (source lines 185-188):
the matched prefix without its leading slash, the empty string when no prefix matched. -/
def Handler.pathLocale (locales : List Str) (path : Str) : Str :=
  match matchPrefix path (Handler.pathPrefixes locales) with
  | some p => TrimPrefix p "/".toList
  | none => []

/-- The request `Handler` hands to `next.ServeHTTP` (source lines 228-230), given the
resolved locale and the delocalized path. -/
def Handler.passedOn (r : Request) (locale delocalizedPath : Str) : Request :=
  { SetRequestDelocalizedPath (SetRequestLocale r locale) delocalizedPath with
    Path := "/".toList ++ locale ++ delocalizedPath }

/-- The same request with the `locale` query parameter removed. -/
def withoutLocaleQuery (r : Request) : Request :=
  { r with Query := erase QueryLocale r.Query }

/-- What the cascade leaves to the next handler: resolved locale, delocalized path and
rewritten path of the request passed on. -/
def resolution (r : Request) : Str × Str × Str :=
  (GetRequestLocale r, GetRequestDelocalizedPath r, r.Path)

/-- The candidate list in the words of the specification, each step guarded by the presence
of its query parameter or header: the `locale` value; `lang-region` when both are present;
`lang-geoIP` when `lang` is present; `und-region` when `region` is present; the
Accept-Language value when present; `und-geoIP`. -/
def Spec.candidatesByPresence (toUpper : Str → Str) (r : Request) : List Str :=
  let geoipCountry := RemapCountryCode toUpper (GeoipCountryCode r)
  (match lookup QueryLocale r.Query with
    | some l => [l.1]
    | none => []) ++
  (match lookup QueryLanguage r.Query, lookup QueryRegion r.Query with
    | some l, some g => [l.1 ++ "-".toList ++ RemapCountryCode toUpper g.1]
    | _, _ => []) ++
  (match lookup QueryLanguage r.Query with
    | some l => [l.1 ++ "-".toList ++ geoipCountry]
    | none => []) ++
  (match lookup QueryRegion r.Query with
    | some g => ["und-".toList ++ RemapCountryCode toUpper g.1]
    | none => []) ++
  (match lookup "Accept-Language".toList r.Header with
    | some (v :: _) => [v]
    | _ => []) ++
  ["und-".toList ++ geoipCountry]

/-- The candidate list with each step guarded by a non-empty value: the `locale` value when
present; `lang-region` when `region` is present and the `lang` value is non-empty;
`lang-geoIP` when the `lang` value is non-empty; `und-region` when `region` is present and
its remapped value is non-empty; the Accept-Language value when non-empty; `und-geoIP`. -/
def Spec.candidatesByValue (toUpper : Str → Str) (r : Request) : List Str :=
  let geoipCountry := RemapCountryCode toUpper (GeoipCountryCode r)
  let lang : Str :=
    match lookup QueryLanguage r.Query with
    | some l => l.1
    | none => []
  (match lookup QueryLocale r.Query with
    | some l => [l.1]
    | none => []) ++
  (match lookup QueryRegion r.Query with
    | some g => if lang ≠ [] then [lang ++ "-".toList ++ RemapCountryCode toUpper g.1] else []
    | none => []) ++
  (if lang ≠ [] then [lang ++ "-".toList ++ geoipCountry] else []) ++
  (match lookup QueryRegion r.Query with
    | some g =>
      if RemapCountryCode toUpper g.1 ≠ [] then
        ["und-".toList ++ RemapCountryCode toUpper g.1]
      else []
    | none => []) ++
  (if r.Header.Get "Accept-Language".toList ≠ [] then [r.Header.Get "Accept-Language".toList]
    else []) ++
  ["und-".toList ++ geoipCountry]

/-- Languages (offical and otherwise) likely to be used by clients of this package.  Each
tag is given by the string forms of its `Base()` and `Region()`; for a tag written without
a region (`language.French`, ...) the region is the one `Tag.Region()` infers. -/
def SuggestedTags : List Tag :=
  [ { Base := "en".toList, Region := "US".toList },
    { Base := "en".toList, Region := "GB".toList },
    { Base := "en".toList, Region := "CA".toList },
    { Base := "fr".toList, Region := "CA".toList },
    { Base := "fr".toList, Region := "FR".toList },
    { Base := "de".toList, Region := "DE".toList },
    { Base := "es".toList, Region := "ES".toList },
    { Base := "it".toList, Region := "IT".toList },
    { Base := "ja".toList, Region := "JP".toList },
    { Base := "nl".toList, Region := "NL".toList },
    { Base := "ru".toList, Region := "RU".toList },
    { Base := "es".toList, Region := "MX".toList },
    { Base := "en".toList, Region := "AU".toList },
    { Base := "pl".toList, Region := "PL".toList },
    { Base := "pt".toList, Region := "BR".toList },
    { Base := "pt".toList, Region := "PT".toList } ]

/-- The loop of `NewMatcher` over the suggested tags: `tags` is the slice built so far. -/
def NewMatcher.loop (locales : List Str) : List Tag → List Tag → List Tag
  | [], tags => tags
  | tag :: rest, tags =>
    if contains locales (BaseRegion tag) then NewMatcher.loop locales rest (tags ++ [tag])
    else NewMatcher.loop locales rest tags

/-- The tag list `NewMatcher` hands to `language.NewMatcher`. -/
def NewMatcher.tags (locales : List Str) : List Tag :=
  NewMatcher.loop locales SuggestedTags []

/-- Create a language matcher from an array from a set of "likely" languages.
`newMatcher` stands for `language.NewMatcher`. -/
def NewMatcher (newMatcher : List Tag → Matcher) (locales : List Str) : Matcher :=
  newMatcher (NewMatcher.tags locales)

/-- The three groups of `RemapCountryCode`, as the case lists of its switch. -/
def RemapCountryCode.groupGB : List Str :=
  ["GB", "UK", "IE", "JE", "IM", "GG", "PN", "AG", "BM", "IO", "VG", "KY", "FK",
    "GI", "MS", "SH", "GS", "TC", "BQ", "BZ"].map String.toList

def RemapCountryCode.groupUS : List Str :=
  ["US", "GU", "PR", "AS", "MP", "VI", "UM", "PU", "MI"].map String.toList

def RemapCountryCode.groupAU : List Str :=
  ["AU", "NZ", "CX", "CC", "HM", "NF"].map String.toList

/-- The geoIP country in the words of the specification: the value of the first header, in
the order of `GeoipCountryHeaders`, whose value is non-empty, and the sentinel when there
is none. -/
def Spec.firstGeoipHeader (sentinel : Str) (r : Request) : Str :=
  match (GeoipCountryHeaders.map r.Header.Get).find? (fun v => decide (v ≠ [])) with
  | some v => v
  | none => sentinel

/-- The same request re-issued at another path. -/
def atPath (r : Request) (path : Str) : Request :=
  { r with Path := path }

/-- The elements of a slash-separated path: the path split at every `/`. -/
def pathElements : Str → List Str
  | [] => [[]]
  | c :: cs =>
    if c = '/' then [] :: pathElements cs
    else
      match pathElements cs with
      | [] => [[c]]
      | e :: es => (c :: e) :: es

/-- One element of `path.Clean` on a rooted path, `kept` being the elements kept so far:
an empty element and `.` are dropped, `..` drops the element before it (nothing at the
root), any other element is kept. -/
def pathClean.step (kept : List Str) (element : Str) : List Str :=
  if element = [] ∨ element = ".".toList then kept
  else if element = "..".toList then kept.dropLast
  else kept ++ [element]

/-- Go standard library, `path.Clean` on a rooted path: the elements kept, joined by single
slashes behind the leading one. -/
def pathClean (p : Str) : Str :=
  "/".toList ++ List.intercalate "/".toList ((pathElements p).foldl pathClean.step [])

/-- Go standard library, `http.Redirect` on a rooted url without query: the path it writes
to the `Location` header, which is the path the client requests next.  It is `path.Clean`
of the url, with the trailing slash of the url kept. -/
def redirectLocation (url : Str) : Str :=
  let cleaned := pathClean url
  if url.getLast? = some '/' ∧ cleaned.getLast? ≠ some '/' then cleaned ++ "/".toList
  else cleaned

/-- ASCII instance of `strings.ToUpper`, used for concrete requests. -/
def asciiToUpper (s : Str) : Str := s.map Char.toUpper

/-- A response writer nothing has been written to. -/
def fresh : ResponseWriter := { SetCookies := [], Redirected := none }

/-- A concrete request: path, query parameters (one value each), headers (one value each)
and cookies. -/
def request (path : String) (query header cookies : List (String × String)) : Request :=
  { Path := path.toList
    Query := query.map (fun kv => (kv.1.toList, (kv.2.toList, [])))
    Header := header.map (fun kv => (kv.1.toList, [kv.2.toList]))
    Cookies := cookies.map (fun kv => (kv.1.toList, kv.2.toList)) }

/-- A concrete matcher over the tags fr-FR, en-GB and en-US: French when a candidate asks
for it, British English for a candidate of the GB region, American English otherwise. -/
def demoMatcher : Matcher := fun candidates =>
  if "fr".toList ∈ candidates then { Base := "fr".toList, Region := "FR".toList }
  else if "und-GB".toList ∈ candidates then { Base := "en".toList, Region := "GB".toList }
  else { Base := "en".toList, Region := "US".toList }

/-! ## Maps, prefixes -/

theorem lookup_filter_ne {β : Type} (k k' : Str) (h : k' ≠ k) (m : List (Str × β)) :
    lookup k (m.filter (fun e => decide (e.1 ≠ k'))) = lookup k m := by
  induction m with
  | nil => rfl
  | cons e m ih =>
    obtain ⟨a, b⟩ := e
    by_cases ha : a = k'
    · have hak : ¬ a = k := fun hk => h (ha.symm.trans hk)
      rw [List.filter_cons_of_neg (by simp [ha]), ih]
      simp [lookup, hak]
    · rw [List.filter_cons_of_pos (by simp [ha])]
      by_cases hk : a = k
      · simp [lookup, hk]
      · simp only [lookup, hk, if_false, ih]

theorem lookup_filter_self {β : Type} (k : Str) (m : List (Str × β)) :
    lookup k (m.filter (fun e => decide (e.1 ≠ k))) = none := by
  induction m with
  | nil => rfl
  | cons e m ih =>
    obtain ⟨a, b⟩ := e
    by_cases ha : a = k
    · rw [List.filter_cons_of_neg (by simp [ha]), ih]
    · rw [List.filter_cons_of_pos (by simp [ha])]
      simp only [lookup, ha, if_false, ih]

theorem Header.Get_Set_self (h : Header) (key value : Str) :
    (h.Set key value).Get key = value := by
  simp [Header.Get, Header.Set, insert, lookup]

theorem Header.Get_Set_of_ne (h : Header) (key key' value : Str) (hne : key' ≠ key) :
    (h.Set key' value).Get key = h.Get key := by
  simp only [Header.Get, Header.Set, insert, lookup, hne, if_false,
    lookup_filter_ne key key' hne]

theorem contains_iff (locales : List Str) (locale : Str) :
    contains locales locale = true ↔ locale ∈ locales := by
  induction locales with
  | nil => simp [contains]
  | cons l rest ih =>
    by_cases h : l = locale
    · simp [contains, h]
    · simp [contains, h, ih, Ne.symm h]

theorem contains_eq_false_iff (locales : List Str) (locale : Str) :
    contains locales locale = false ↔ locale ∉ locales := by
  rw [← contains_iff]; simp

theorem matchPrefix_eq_none_iff (s : Str) (prefixes : List Str) :
    matchPrefix s prefixes = none ↔ ∀ p ∈ prefixes, HasPrefix s p = false := by
  induction prefixes with
  | nil => simp [matchPrefix]
  | cons p ps ih =>
    by_cases h : HasPrefix s p = true
    · simp [matchPrefix, h]
    · simp [matchPrefix, h, ih]

theorem matchPrefix_some (s p : Str) (prefixes : List Str)
    (h : matchPrefix s prefixes = some p) : p ∈ prefixes ∧ HasPrefix s p = true := by
  induction prefixes with
  | nil => simp [matchPrefix] at h
  | cons p' ps ih =>
    by_cases hp : HasPrefix s p' = true
    · simp [matchPrefix, hp] at h
      subst h
      simp [hp]
    · simp [matchPrefix, hp] at h
      have := ih h
      simp [this]

theorem TrimPrefix_slash (l : Str) : TrimPrefix ("/".toList ++ l) "/".toList = l := by
  simp [TrimPrefix, HasPrefix, List.isPrefixOf]

theorem append_TrimPrefix (s p : Str) (h : HasPrefix s p = true) : p ++ TrimPrefix s p = s := by
  have hp : p <+: s := by simpa [HasPrefix] using h
  obtain ⟨t, rfl⟩ := hp
  simp [TrimPrefix, HasPrefix]

theorem TrimPrefix_append (p d : Str) : TrimPrefix (p ++ d) p = d := by
  simp [TrimPrefix, HasPrefix]

theorem mem_pathPrefixes (locales : List Str) (l : Str) :
    "/".toList ++ l ∈ Handler.pathPrefixes locales ↔ l ∈ locales := by
  simp [Handler.pathPrefixes]

theorem pathLocale_mem (locales : List Str) (path : Str)
    (h : matchPrefix path (Handler.pathPrefixes locales) ≠ none) :
    Handler.pathLocale locales path ∈ locales := by
  unfold Handler.pathLocale
  cases hm : matchPrefix path (Handler.pathPrefixes locales) with
  | none => exact absurd hm h
  | some p =>
    obtain ⟨hmem, -⟩ := matchPrefix_some _ _ _ hm
    simp only [Handler.pathPrefixes, List.mem_map] at hmem
    obtain ⟨l, hl, rfl⟩ := hmem
    show TrimPrefix ("/".toList ++ l) "/".toList ∈ locales
    rw [TrimPrefix_slash]
    exact hl

theorem pathLocale_of_match (locales : List Str) (path l : Str)
    (h : matchPrefix path (Handler.pathPrefixes locales) = some ("/".toList ++ l)) :
    Handler.pathLocale locales path = l := by
  simp only [Handler.pathLocale, h]
  exact TrimPrefix_slash l

theorem pathLocale_of_none (locales : List Str) (path : Str)
    (h : matchPrefix path (Handler.pathPrefixes locales) = none) :
    Handler.pathLocale locales path = [] := by
  simp only [Handler.pathLocale, h]

theorem passedOn_locale (r : Request) (locale d : Str) :
    GetRequestLocale (Handler.passedOn r locale d) = locale := by
  simp only [GetRequestLocale, Handler.passedOn, SetRequestDelocalizedPath, SetRequestLocale]
  rw [Header.Get_Set_of_ne _ _ _ _ (by decide), Header.Get_Set_self]

theorem passedOn_delocalized (r : Request) (locale d : Str) :
    GetRequestDelocalizedPath (Handler.passedOn r locale d) = d := by
  simp only [GetRequestDelocalizedPath, Handler.passedOn, SetRequestDelocalizedPath]
  rw [Header.Get_Set_self]

theorem passedOn_path (r : Request) (locale d : Str) :
    (Handler.passedOn r locale d).Path = "/".toList ++ locale ++ d := rfl

/-- The handler, stage by stage: the outcome of `Handler` in terms of the path-embedded
locale, the delocalized path, the adopted query value and the cookie. -/
theorem Handler_stages (toUpper : Str → Str) (locales : List Str) (matcher : Matcher)
    (w : ResponseWriter) (r : Request) :
    Handler toUpper locales matcher w r =
      (let pl := Handler.pathLocale locales r.Path
       let d := trimPrefixes r.Path (Handler.pathPrefixes locales)
       let rest : ResponseWriter → Served := fun w =>
         if pl ≠ [] then { w := w, next := some (Handler.passedOn r pl d) }
         else match r.Cookie CookieName with
           | some c =>
             if c ≠ [] then { w := Redirect w ("/".toList ++ c ++ d) StatusFound, next := none }
             else { w := w, next := some (Handler.passedOn r
                      (BaseRegion (DeduceLanguage toUpper matcher r)) d) }
           | none => { w := w, next := some (Handler.passedOn r
                      (BaseRegion (DeduceLanguage toUpper matcher r)) d) }
       match lookup QueryLocale r.Query with
       | some q =>
         let v := Replace q.1 '_' '-'
         if contains locales v then
           if v ≠ pl then
             { w := Redirect (SetCookieLocale w v) ("/".toList ++ v ++ d) StatusFound,
               next := none }
           else if v ≠ [] then
             { w := SetCookieLocale w v, next := some (Handler.passedOn r v d) }
           else rest (SetCookieLocale w v)
         else rest w
       | none => rest w) := by
  have hbr : ∀ t : Tag, BaseRegion t ≠ [] := by
    intro t; simp [BaseRegion]
  unfold Handler
  simp only [Id.run, Handler.pathLocale, trimPrefixes, QueryLocale, CookieName]
  cases hm : matchPrefix r.Path (Handler.pathPrefixes locales) <;>
  cases hq : lookup "locale".toList r.Query <;>
  cases hc : r.Cookie "locale".toList <;>
  simp [Handler.passedOn, hbr] <;>
  split_ifs <;> simp_all

theorem trimPrefixes_of_match (path p : Str) (prefixes : List Str)
    (h : matchPrefix path prefixes = some p) : trimPrefixes path prefixes = TrimPrefix path p := by
  simp only [trimPrefixes, h]

theorem trimPrefixes_of_none (path : Str) (prefixes : List Str)
    (h : matchPrefix path prefixes = none) : trimPrefixes path prefixes = path := by
  simp only [trimPrefixes, h]

theorem matchPrefix_none_of_no_locale (locales : List Str) (path : Str)
    (h : ∀ l ∈ locales, HasPrefix path ("/".toList ++ l) = false) :
    matchPrefix path (Handler.pathPrefixes locales) = none := by
  rw [matchPrefix_eq_none_iff]
  intro p hp
  simp only [Handler.pathPrefixes, List.mem_map] at hp
  obtain ⟨l, hl, rfl⟩ := hp
  exact h l hl

/-! ## The resolution cascade -/

/-- C1 (as stated, refuted): path `/fr/page`, cookie `locale=en-US`, no query, supported set
[fr, en-US].  The cookie holds a supported locale that differs from the path locale, yet
`Handler` issues no redirect and calls the next handler with locale `fr` on the path
`/fr/page`. -/
theorem cookie_override_counterexample :
    lookup QueryLocale (request "/fr/page" [] [] [("locale", "en-US")]).Query = none ∧
    HasPrefix (request "/fr/page" [] [] [("locale", "en-US")]).Path "/fr".toList = true ∧
    (request "/fr/page" [] [] [("locale", "en-US")]).Cookie CookieName = some "en-US".toList ∧
    (Handler asciiToUpper ["fr".toList, "en-US".toList] demoMatcher fresh
        (request "/fr/page" [] [] [("locale", "en-US")])).w.Redirected = none ∧
    (Handler asciiToUpper ["fr".toList, "en-US".toList] demoMatcher fresh
        (request "/fr/page" [] [] [("locale", "en-US")])).next.map
          (fun x => (GetRequestLocale x, x.Path)) = some ("fr".toList, "/fr/page".toList) := by
  decide

/-- C1 (amended): for every supported set and every request without a `locale` query
parameter, when the first supported prefix the path begins with is `/p` with `p` non-empty,
then whatever the `locale` cookie holds, `Handler` writes nothing to the response (no
redirect, no cookie) and calls the next handler with resolved locale `p`, the delocalized
path being the path without `/p` and the request path left as it was. -/
theorem path_locale_precedes_cookie (toUpper : Str → Str) (locales : List Str)
    (matcher : Matcher) (w : ResponseWriter) (r : Request) (p c : Str)
    (hq : lookup QueryLocale r.Query = none)
    (hp : matchPrefix r.Path (Handler.pathPrefixes locales) = some ("/".toList ++ p))
    (hne : p ≠ [])
    (hc : r.Cookie CookieName = some c) :
    (Handler toUpper locales matcher w r).w = w ∧
    ∃ r', (Handler toUpper locales matcher w r).next = some r' ∧
      GetRequestLocale r' = p ∧
      GetRequestDelocalizedPath r' = TrimPrefix r.Path ("/".toList ++ p) ∧
      r'.Path = r.Path := by
  have hpl := pathLocale_of_match locales r.Path p hp
  have hd := trimPrefixes_of_match _ _ _ hp
  have hpre := (matchPrefix_some _ _ _ hp).2
  rw [Handler_stages]
  simp only [hq, hpl, hd, hc, ne_eq, hne, not_false_eq_true, if_true]
  refine ⟨trivial, _, rfl, passedOn_locale _ _ _, passedOn_delocalized _ _ _, ?_⟩
  rw [passedOn_path, append_TrimPrefix _ _ hpre]

/-- C1 (witness): path `/fr/page`, cookie `locale=en-US`, supported set [fr, en-US]: passed on
with locale `fr`. -/
theorem path_locale_precedes_cookie_witness :
    (Handler asciiToUpper ["fr".toList, "en-US".toList] demoMatcher fresh
        (request "/fr/page" [] [] [("locale", "en-US")])).w = fresh ∧
    ∃ r', (Handler asciiToUpper ["fr".toList, "en-US".toList] demoMatcher fresh
        (request "/fr/page" [] [] [("locale", "en-US")])).next = some r' ∧
      GetRequestLocale r' = "fr".toList ∧
      GetRequestDelocalizedPath r' = "/page".toList ∧
      r'.Path = "/fr/page".toList :=
  path_locale_precedes_cookie asciiToUpper ["fr".toList, "en-US".toList] demoMatcher fresh
    (request "/fr/page" [] [] [("locale", "en-US")]) "fr".toList "en-US".toList
    (by decide) (by decide) (by decide) (by decide)

/-- C2 (as stated, refuted): two requests without query and without cookie whose path
begins with `/l` for a supported `l`, and whose resolved locale is not `l`.  With the
supported set [fr, fr-CA] the path `/fr-CA/page` resolves to `fr`, the first prefix that
matches; with the supported set holding the empty locale the path `/x` begins with `/`
followed by that locale and resolves to the deduced locale `en-US`. -/
theorem path_locale_counterexample :
    ("fr-CA".toList ∈ ["fr".toList, "fr-CA".toList] ∧
      HasPrefix (request "/fr-CA/page" [] [] []).Path ("/".toList ++ "fr-CA".toList) = true ∧
      (Handler asciiToUpper ["fr".toList, "fr-CA".toList] demoMatcher fresh
        (request "/fr-CA/page" [] [] [])).next.map GetRequestLocale = some "fr".toList) ∧
    (([] : Str) ∈ [([] : Str)] ∧
      HasPrefix (request "/x" [] [] []).Path ("/".toList ++ []) = true ∧
      (Handler asciiToUpper [[]] demoMatcher fresh
        (request "/x" [] [] [])).next.map GetRequestLocale = some "en-US".toList) := by
  decide

/-- C2 (amended): for every supported set, every non-empty locale `l` and every request
without a `locale` query parameter and without a `locale` cookie, when `/l` is the first
prefix of the supported set, in its order, that the path begins with, `Handler` does not
redirect (the response is left untouched), calls the next handler, and the resolved locale
(`GetRequestLocale`) equals `l`, which is a member of the supported set. -/
theorem path_locale_wins (toUpper : Str → Str) (locales : List Str)
    (matcher : Matcher) (w : ResponseWriter) (r : Request) (l : Str)
    (hq : lookup QueryLocale r.Query = none)
    (hc : r.Cookie CookieName = none)
    (hp : matchPrefix r.Path (Handler.pathPrefixes locales) = some ("/".toList ++ l))
    (hne : l ≠ []) :
    l ∈ locales ∧
    (Handler toUpper locales matcher w r).w = w ∧
    ∃ r', (Handler toUpper locales matcher w r).next = some r' ∧ GetRequestLocale r' = l := by
  have hpl := pathLocale_of_match locales r.Path l hp
  have hmem := (mem_pathPrefixes locales l).1 (matchPrefix_some _ _ _ hp).1
  rw [Handler_stages]
  simp only [hq, hpl, hc, ne_eq, hne, not_false_eq_true, if_true]
  exact ⟨hmem, trivial, _, rfl, passedOn_locale _ _ _⟩

/-- C2 (witness): path `/en-GB/help`, supported set [en-US, en-GB], no cookie, no `locale`
query value: resolved locale `en-GB`. -/
theorem path_locale_wins_witness :
    "en-GB".toList ∈ ["en-US".toList, "en-GB".toList] ∧
    (Handler asciiToUpper ["en-US".toList, "en-GB".toList] demoMatcher fresh
        (request "/en-GB/help" [("lang", "fr")] [] [])).w = fresh ∧
    ∃ r', (Handler asciiToUpper ["en-US".toList, "en-GB".toList] demoMatcher fresh
        (request "/en-GB/help" [("lang", "fr")] [] [])).next = some r' ∧
      GetRequestLocale r' = "en-GB".toList :=
  path_locale_wins asciiToUpper ["en-US".toList, "en-GB".toList] demoMatcher fresh
    (request "/en-GB/help" [("lang", "fr")] [] []) "en-GB".toList
    (by decide) (by decide) (by decide) (by decide)

/-- C3: for every supported set and every request whose first `locale` query value, with
every underscore replaced by a hyphen, is a member `v` of the supported set and differs from
the path-embedded locale (empty when the path has no supported prefix), `Handler` writes the
preference cookie with value `v`, answers with a 302 redirect to `/v` followed by the
delocalized path, and does not call the next handler. -/
theorem explicit_query_override (toUpper : Str → Str) (locales : List Str)
    (matcher : Matcher) (w : ResponseWriter) (r : Request) (q : Str × List Str)
    (hq : lookup QueryLocale r.Query = some q)
    (hv : Replace q.1 '_' '-' ∈ locales)
    (hd : Replace q.1 '_' '-' ≠ Handler.pathLocale locales r.Path) :
    (Handler toUpper locales matcher w r).w.SetCookies = w.SetCookies ++
      [{ Name := "locale".toList, Value := Replace q.1 '_' '-', ExpiresMonths := 1,
         Path := "/".toList }] ∧
    (Handler toUpper locales matcher w r).w.Redirected =
      some ("/".toList ++ Replace q.1 '_' '-' ++
        trimPrefixes r.Path (Handler.pathPrefixes locales), 302) ∧
    (Handler toUpper locales matcher w r).next = none := by
  have hc := (contains_iff locales _).2 hv
  rw [Handler_stages]
  simp only [hq, hc, ne_eq, hd, not_false_eq_true, if_true]
  refine ⟨?_, ?_, ?_⟩ <;> first | rfl | trivial

/-- C3 (witness): path `/en-US/help`, query `locale=en_GB`, supported set [en-US, en-GB]:
redirect to `/en-GB/help`, cookie `en-GB`. -/
theorem explicit_query_override_witness :
    (Handler asciiToUpper ["en-US".toList, "en-GB".toList] demoMatcher fresh
        (request "/en-US/help" [("locale", "en_GB")] [] [])).w.SetCookies =
      [{ Name := "locale".toList, Value := "en-GB".toList, ExpiresMonths := 1,
         Path := "/".toList }] ∧
    (Handler asciiToUpper ["en-US".toList, "en-GB".toList] demoMatcher fresh
        (request "/en-US/help" [("locale", "en_GB")] [] [])).w.Redirected =
      some ("/en-GB/help".toList, 302) ∧
    (Handler asciiToUpper ["en-US".toList, "en-GB".toList] demoMatcher fresh
        (request "/en-US/help" [("locale", "en_GB")] [] [])).next = none :=
  explicit_query_override asciiToUpper ["en-US".toList, "en-GB".toList] demoMatcher fresh
    (request "/en-US/help" [("locale", "en_GB")] [] []) ("en_GB".toList, [])
    (by decide) (by decide) (by decide)

/-- C4 (as stated, refuted): two requests whose path is `/v` followed by `d` for a supported
`v` and whose `locale` query parameter normalizes to `v`.  With the supported set
[fr, fr-CA], `v` = fr-CA and `d` = `/page`, the path locale found is `fr` and `Handler`
redirects to `/fr-CA-CA/page`.  With the supported set holding the empty locale, `v` empty
and `d` = `x`, there is no redirect but the resolved locale is the deduced `en-US`. -/
theorem fixed_point_counterexample :
    ("fr-CA".toList ∈ ["fr".toList, "fr-CA".toList] ∧
      (request "/fr-CA/page" [("locale", "fr-CA")] [] []).Path
        = "/".toList ++ "fr-CA".toList ++ "/page".toList ∧
      (Handler asciiToUpper ["fr".toList, "fr-CA".toList] demoMatcher fresh
        (request "/fr-CA/page" [("locale", "fr-CA")] [] [])).w.Redirected
        = some ("/fr-CA-CA/page".toList, 302) ∧
      (Handler asciiToUpper ["fr".toList, "fr-CA".toList] demoMatcher fresh
        (request "/fr-CA/page" [("locale", "fr-CA")] [] [])).next = none) ∧
    (([] : Str) ∈ [([] : Str)] ∧
      (request "/x" [("locale", "")] [] []).Path = "/".toList ++ [] ++ "x".toList ∧
      (Handler asciiToUpper [[]] demoMatcher fresh
        (request "/x" [("locale", "")] [] [])).next.map GetRequestLocale
        = some "en-US".toList) := by
  decide

/-- C4 (amended): for every supported set, every non-empty `v` and every path `d`, when `/v`
is the first prefix of the supported set, in its order, that `/v` followed by `d` begins
with, a request with that path whose `locale` query parameter normalizes to `v` is not
redirected by `Handler`: the preference cookie is written with `v` and the next handler runs
with resolved locale `v`, delocalized path `d` and the path left as it was. -/
theorem query_matching_path_fixed_point (toUpper : Str → Str) (locales : List Str)
    (matcher : Matcher) (w : ResponseWriter) (r : Request) (v d : Str) (q : Str × List Str)
    (hpath : r.Path = "/".toList ++ v ++ d)
    (hfirst : matchPrefix r.Path (Handler.pathPrefixes locales) = some ("/".toList ++ v))
    (hne : v ≠ [])
    (hq : lookup QueryLocale r.Query = some q)
    (hv : Replace q.1 '_' '-' = v) :
    v ∈ locales ∧
    (Handler toUpper locales matcher w r).w.Redirected = w.Redirected ∧
    (Handler toUpper locales matcher w r).w = SetCookieLocale w v ∧
    ∃ r', (Handler toUpper locales matcher w r).next = some r' ∧
      GetRequestLocale r' = v ∧ GetRequestDelocalizedPath r' = d ∧ r'.Path = r.Path := by
  have hpl := pathLocale_of_match locales r.Path v hfirst
  have hmem := (mem_pathPrefixes locales v).1 (matchPrefix_some _ _ _ hfirst).1
  have hc := (contains_iff locales _).2 hmem
  have hd : trimPrefixes r.Path (Handler.pathPrefixes locales) = d := by
    rw [trimPrefixes_of_match _ _ _ hfirst, hpath, TrimPrefix_append]
  rw [Handler_stages]
  simp only [hq, hv, hc, hpl, hd, ne_eq, hne, not_true_eq_false, not_false_eq_true, if_true,
    if_false]
  refine ⟨hmem, rfl, trivial, _, rfl, passedOn_locale _ _ _, passedOn_delocalized _ _ _, ?_⟩
  rw [passedOn_path, hpath]

/-- C4 (witness): path `/en-GB/help`, query `locale=en_GB`, supported set [en-US, en-GB]:
no redirect, locale `en-GB`. -/
theorem query_matching_path_fixed_point_witness :
    "en-GB".toList ∈ ["en-US".toList, "en-GB".toList] ∧
    (Handler asciiToUpper ["en-US".toList, "en-GB".toList] demoMatcher fresh
        (request "/en-GB/help" [("locale", "en_GB")] [] [])).w.Redirected = none ∧
    (Handler asciiToUpper ["en-US".toList, "en-GB".toList] demoMatcher fresh
        (request "/en-GB/help" [("locale", "en_GB")] [] [])).w
      = SetCookieLocale fresh "en-GB".toList ∧
    ∃ r', (Handler asciiToUpper ["en-US".toList, "en-GB".toList] demoMatcher fresh
        (request "/en-GB/help" [("locale", "en_GB")] [] [])).next = some r' ∧
      GetRequestLocale r' = "en-GB".toList ∧ GetRequestDelocalizedPath r' = "/help".toList ∧
      r'.Path = "/en-GB/help".toList :=
  query_matching_path_fixed_point asciiToUpper ["en-US".toList, "en-GB".toList] demoMatcher
    fresh (request "/en-GB/help" [("locale", "en_GB")] [] []) "en-GB".toList "/help".toList
    ("en_GB".toList, []) (by decide) (by decide) (by decide) (by decide) (by decide)

/-- C5: for every request with no adopted `locale` query value (the parameter is absent,
or its normalized value is not in the supported set), whose path has no supported-locale
prefix, and whose `locale` cookie holds a non-empty value `c`, `Handler` answers with a 302
redirect to `/c` followed by the original path, writes no cookie, and does not call the
next handler. -/
theorem stored_cookie_stage (toUpper : Str → Str) (locales : List Str)
    (matcher : Matcher) (w : ResponseWriter) (r : Request) (c : Str)
    (hq : ∀ q ∈ lookup QueryLocale r.Query, Replace q.1 '_' '-' ∉ locales)
    (hp : ∀ l ∈ locales, HasPrefix r.Path ("/".toList ++ l) = false)
    (hc : r.Cookie CookieName = some c)
    (hne : c ≠ []) :
    (Handler toUpper locales matcher w r).w.Redirected
      = some ("/".toList ++ c ++ r.Path, 302) ∧
    (Handler toUpper locales matcher w r).w.SetCookies = w.SetCookies ∧
    (Handler toUpper locales matcher w r).next = none := by
  have hm := matchPrefix_none_of_no_locale locales r.Path hp
  have hpl := pathLocale_of_none locales r.Path hm
  have hd := trimPrefixes_of_none _ _ hm
  rw [Handler_stages]
  cases hl : lookup QueryLocale r.Query with
  | none =>
    simp only [hpl, hd, hc, ne_eq, hne, not_true_eq_false, not_false_eq_true, if_true,
      if_false]
    refine ⟨?_, ?_, ?_⟩ <;> first | rfl | trivial
  | some q =>
    have hn := (contains_eq_false_iff locales _).2 (hq q hl)
    simp only [hpl, hd, hc, hn, ne_eq, hne, not_true_eq_false, not_false_eq_true, if_true,
      if_false, Bool.false_eq_true]
    refine ⟨?_, ?_, ?_⟩ <;> first | rfl | trivial

/-- C5 (witness): path `/page`, unsupported query value `de_DE`, cookie `locale=en-US`:
redirect to `/en-US/page`. -/
theorem stored_cookie_stage_witness :
    (Handler asciiToUpper ["fr".toList, "en-US".toList] demoMatcher fresh
        (request "/page" [("locale", "de_DE")] [] [("locale", "en-US")])).w.Redirected
      = some ("/en-US/page".toList, 302) ∧
    (Handler asciiToUpper ["fr".toList, "en-US".toList] demoMatcher fresh
        (request "/page" [("locale", "de_DE")] [] [("locale", "en-US")])).w.SetCookies = [] ∧
    (Handler asciiToUpper ["fr".toList, "en-US".toList] demoMatcher fresh
        (request "/page" [("locale", "de_DE")] [] [("locale", "en-US")])).next = none :=
  stored_cookie_stage asciiToUpper ["fr".toList, "en-US".toList] demoMatcher fresh
    (request "/page" [("locale", "de_DE")] [] [("locale", "en-US")]) "en-US".toList
    (by decide) (by decide) (by decide) (by decide)

/-- C6: for every request with no adopted `locale` query value, no supported-locale path
prefix and no `locale` cookie, `Handler` issues no redirect and writes no cookie (the
response is left untouched), and passes the request on with the resolved locale set to
`BaseRegion (DeduceLanguage matcher request)`, the original path recorded as the
delocalized path, and the path rewritten to `/` followed by that locale and the original
path. -/
theorem deduced_fallback (toUpper : Str → Str) (locales : List Str)
    (matcher : Matcher) (w : ResponseWriter) (r : Request)
    (hq : ∀ q ∈ lookup QueryLocale r.Query, Replace q.1 '_' '-' ∉ locales)
    (hp : ∀ l ∈ locales, HasPrefix r.Path ("/".toList ++ l) = false)
    (hc : r.Cookie CookieName = none) :
    (Handler toUpper locales matcher w r).w = w ∧
    ∃ r', (Handler toUpper locales matcher w r).next = some r' ∧
      GetRequestLocale r' = BaseRegion (DeduceLanguage toUpper matcher r) ∧
      GetRequestDelocalizedPath r' = r.Path ∧
      r'.Path = "/".toList ++ BaseRegion (DeduceLanguage toUpper matcher r) ++ r.Path := by
  have hm := matchPrefix_none_of_no_locale locales r.Path hp
  have hpl := pathLocale_of_none locales r.Path hm
  have hd := trimPrefixes_of_none _ _ hm
  rw [Handler_stages]
  cases hl : lookup QueryLocale r.Query with
  | none =>
    simp only [hpl, hd, hc, ne_eq, not_true_eq_false, if_false]
    exact ⟨trivial, _, rfl, passedOn_locale _ _ _, passedOn_delocalized _ _ _, rfl⟩
  | some q =>
    have hn := (contains_eq_false_iff locales _).2 (hq q hl)
    simp only [hpl, hd, hc, hn, ne_eq, not_true_eq_false, if_false, Bool.false_eq_true]
    exact ⟨trivial, _, rfl, passedOn_locale _ _ _, passedOn_delocalized _ _ _, rfl⟩

/-- C6 (witness): path `/`, header `CloudFront-Viewer-Country: GB`, a matcher answering
en-GB: path rewritten to `/en-GB/`. -/
theorem deduced_fallback_witness :
    (Handler asciiToUpper ["en-US".toList, "en-GB".toList] demoMatcher fresh
        (request "/" [] [("CloudFront-Viewer-Country", "GB")] [])).w = fresh ∧
    ∃ r', (Handler asciiToUpper ["en-US".toList, "en-GB".toList] demoMatcher fresh
        (request "/" [] [("CloudFront-Viewer-Country", "GB")] [])).next = some r' ∧
      GetRequestLocale r' = "en-GB".toList ∧
      GetRequestDelocalizedPath r' = "/".toList ∧
      r'.Path = "/en-GB/".toList :=
  deduced_fallback asciiToUpper ["en-US".toList, "en-GB".toList] demoMatcher fresh
    (request "/" [] [("CloudFront-Viewer-Country", "GB")] []) (by decide) (by decide)
    (by decide)

/-- C7: for every request that `Handler` does not redirect, a request is handed to the next
handler and it satisfies path = `/` followed by `GetRequestLocale` and by
`GetRequestDelocalizedPath`, where the recorded delocalized path is the original path with
the matched supported-locale prefix removed (the original path when no prefix matched). -/
theorem post_cascade_consistency (toUpper : Str → Str) (locales : List Str)
    (matcher : Matcher) (w : ResponseWriter) (r : Request)
    (h : (Handler toUpper locales matcher w r).w.Redirected = none) :
    ∃ r', (Handler toUpper locales matcher w r).next = some r' ∧
      r'.Path = "/".toList ++ GetRequestLocale r' ++ GetRequestDelocalizedPath r' ∧
      GetRequestDelocalizedPath r' = trimPrefixes r.Path (Handler.pathPrefixes locales) := by
  have key : ∀ (w' : ResponseWriter) (locale d : Str),
      ∃ r', ({ w := w', next := some (Handler.passedOn r locale d) } : Served).next = some r' ∧
        r'.Path = "/".toList ++ GetRequestLocale r' ++ GetRequestDelocalizedPath r' ∧
        GetRequestDelocalizedPath r' = d := by
    intro w' locale d
    refine ⟨_, rfl, ?_, passedOn_delocalized _ _ _⟩
    rw [passedOn_locale, passedOn_delocalized, passedOn_path]
  rw [Handler_stages] at h ⊢
  revert h
  cases lookup QueryLocale r.Query <;> cases r.Cookie CookieName <;>
    simp only [] <;> split_ifs <;> intro h <;>
    first
      | exact key _ _ _
      | exact absurd h (by simp [Redirect])

/-- C7 (witness): path `/fr/page`, cookie `locale=en-US`, supported set [fr, en-US]: the
request is passed on. -/
theorem post_cascade_consistency_witness :
    ∃ r', (Handler asciiToUpper ["fr".toList, "en-US".toList] demoMatcher fresh
        (request "/fr/page" [] [] [("locale", "en-US")])).next = some r' ∧
      r'.Path = "/".toList ++ GetRequestLocale r' ++ GetRequestDelocalizedPath r' ∧
      GetRequestDelocalizedPath r' = trimPrefixes
        (request "/fr/page" [] [] [("locale", "en-US")]).Path
        (Handler.pathPrefixes ["fr".toList, "en-US".toList]) :=
  post_cascade_consistency asciiToUpper ["fr".toList, "en-US".toList] demoMatcher fresh
    (request "/fr/page" [] [] [("locale", "en-US")]) (by decide)

/-- C8 (failing input): supported set [en-US], path `/page`, cookie `locale=xx`, no query.
The cookie value is not in the supported set, yet `Handler` adopts it and redirects to
`/xx/page`; the same request re-issued at that target is redirected again, to
`/xx/xx/page`.  The query stage, by contrast, rejects the same value. -/
theorem unsupported_cookie_adopted :
    "xx".toList ∉ ["en-US".toList] ∧
    (Handler asciiToUpper ["en-US".toList] demoMatcher fresh
        (request "/page" [] [] [("locale", "xx")])).w.Redirected
      = some ("/xx/page".toList, 302) ∧
    (Handler asciiToUpper ["en-US".toList] demoMatcher fresh
        (request "/xx/page" [] [] [("locale", "xx")])).w.Redirected
      = some ("/xx/xx/page".toList, 302) ∧
    (Handler asciiToUpper ["en-US".toList] demoMatcher fresh
        (request "/page" [("locale", "xx")] [] [])).w = fresh := by
  decide

theorem lookup_withoutLocaleQuery (r : Request) :
    lookup QueryLocale (withoutLocaleQuery r).Query = none :=
  lookup_filter_self QueryLocale r.Query

theorem resolution_passedOn (r : Request) (locale d : Str) :
    resolution (Handler.passedOn r locale d) = (locale, d, "/".toList ++ locale ++ d) := by
  simp only [resolution, passedOn_locale, passedOn_delocalized, passedOn_path]

/-- C9 (as stated, refuted): supported set holding the empty locale, path `/x`, query
`locale=fr`, no cookie.  The query value is not supported and the path begins with `/`
followed by a supported locale, yet the resolved locale is `fr-FR` with the parameter and
`en-US` without it: the deduction reads the parameter. -/
theorem invalid_override_counterexample :
    Replace "fr".toList '_' '-' ∉ [([] : Str)] ∧
    (([] : Str) ∈ [([] : Str)] ∧
      HasPrefix (request "/x" [("locale", "fr")] [] []).Path ("/".toList ++ []) = true) ∧
    (Handler asciiToUpper [[]] demoMatcher fresh
        (request "/x" [("locale", "fr")] [] [])).next.map GetRequestLocale
      = some "fr-FR".toList ∧
    (Handler asciiToUpper [[]] demoMatcher fresh
        (withoutLocaleQuery (request "/x" [("locale", "fr")] [] []))).next.map GetRequestLocale
      = some "en-US".toList := by
  decide

/-- C9 (amended): for every request whose `locale` query value, after underscore-to-hyphen
normalization, is not in the supported set, `Handler` writes no cookie, its effect on the
response (redirect or not, redirect target) is the one it has on the same request with the
`locale` parameter removed, and whenever the path-embedded locale is non-empty or a
non-empty cookie is present, the request is passed on or not alike and with the same
resolved locale, delocalized path and rewritten path. -/
theorem invalid_override_ignored (toUpper : Str → Str) (locales : List Str)
    (matcher : Matcher) (w : ResponseWriter) (r : Request) (q : Str × List Str)
    (hq : lookup QueryLocale r.Query = some q)
    (hv : Replace q.1 '_' '-' ∉ locales) :
    (Handler toUpper locales matcher w r).w.SetCookies = w.SetCookies ∧
    (Handler toUpper locales matcher w r).w
      = (Handler toUpper locales matcher w (withoutLocaleQuery r)).w ∧
    ((Handler.pathLocale locales r.Path ≠ [] ∨ ∃ c, r.Cookie CookieName = some c ∧ c ≠ []) →
      (Handler toUpper locales matcher w r).next.map resolution
        = (Handler toUpper locales matcher w (withoutLocaleQuery r)).next.map resolution) := by
  have hn := (contains_eq_false_iff locales _).2 hv
  have h0 := lookup_withoutLocaleQuery r
  have hpath : (withoutLocaleQuery r).Path = r.Path := rfl
  have hcookie : (withoutLocaleQuery r).Cookie CookieName = r.Cookie CookieName := rfl
  rw [Handler_stages, Handler_stages]
  simp only [hq, h0, hn, hpath, hcookie, Bool.false_eq_true, if_false]
  by_cases hpl : Handler.pathLocale locales r.Path = []
  · cases hc : r.Cookie CookieName with
    | none => simp [hpl]
    | some c =>
      by_cases hce : c = []
      · simp [hpl, hce]
      · simp [hpl, hce, Redirect]
  · simp [hpl, resolution_passedOn]

/-- C9 (witness): path `/fr/page`, query `locale=de_DE`, supported set [fr, en-US]: the
outcome is that of the request without the parameter. -/
theorem invalid_override_ignored_witness :
    (Handler asciiToUpper ["fr".toList, "en-US".toList] demoMatcher fresh
        (request "/fr/page" [("locale", "de_DE")] [] [])).w.SetCookies = [] ∧
    (Handler asciiToUpper ["fr".toList, "en-US".toList] demoMatcher fresh
        (request "/fr/page" [("locale", "de_DE")] [] [])).w
      = (Handler asciiToUpper ["fr".toList, "en-US".toList] demoMatcher fresh
        (withoutLocaleQuery (request "/fr/page" [("locale", "de_DE")] [] []))).w ∧
    (Handler asciiToUpper ["fr".toList, "en-US".toList] demoMatcher fresh
        (request "/fr/page" [("locale", "de_DE")] [] [])).next.map resolution
      = (Handler asciiToUpper ["fr".toList, "en-US".toList] demoMatcher fresh
        (withoutLocaleQuery (request "/fr/page" [("locale", "de_DE")] [] []))).next.map
          resolution :=
  ⟨(invalid_override_ignored asciiToUpper ["fr".toList, "en-US".toList] demoMatcher fresh
      (request "/fr/page" [("locale", "de_DE")] [] []) ("de_DE".toList, [])
      (by decide) (by decide)).1,
   (invalid_override_ignored asciiToUpper ["fr".toList, "en-US".toList] demoMatcher fresh
      (request "/fr/page" [("locale", "de_DE")] [] []) ("de_DE".toList, [])
      (by decide) (by decide)).2.1,
   (invalid_override_ignored asciiToUpper ["fr".toList, "en-US".toList] demoMatcher fresh
      (request "/fr/page" [("locale", "de_DE")] [] []) ("de_DE".toList, [])
      (by decide) (by decide)).2.2 (Or.inl (by decide))⟩

/-! ## The candidate list of the deduction -/

/-- C10 (as stated, refuted): a request whose query is `lang=` (the parameter present, its
value empty) and that carries no geoIP header.  The list by presence holds `-UNK` and
`und-UNK`; the list `DeduceLanguage` builds holds `und-UNK` only. -/
theorem candidates_by_presence_counterexample :
    lookup QueryLanguage (request "/" [("lang", "")] [] []).Query = some ([], []) ∧
    Spec.candidatesByPresence asciiToUpper (request "/" [("lang", "")] [] [])
      = ["-UNK".toList, "und-UNK".toList] ∧
    DeduceLanguage.candidates asciiToUpper (request "/" [("lang", "")] [] [])
      = ["und-UNK".toList] := by
  decide

/-- C10 (amended): for every request, the list `DeduceLanguage` passes to the matcher is
exactly the concatenation, in this order, of: the first `locale` query value verbatim if
that parameter is present; `lang-RemapCountryCode(region)` if the `region` parameter is
present and the `lang` value is non-empty; `lang-geoIP` if the `lang` value is non-empty;
`und-RemapCountryCode(region)` if the `region` parameter is present and its remapped value
is non-empty; the raw Accept-Language value if non-empty; and finally `und-geoIP`. -/
theorem candidates_by_value (toUpper : Str → Str) (matcher : Matcher) (r : Request) :
    DeduceLanguage.candidates toUpper r = Spec.candidatesByValue toUpper r ∧
    DeduceLanguage toUpper matcher r = matcher (Spec.candidatesByValue toUpper r) := by
  have h : DeduceLanguage.candidates toUpper r = Spec.candidatesByValue toUpper r := by
    unfold DeduceLanguage.candidates Spec.candidatesByValue
    simp only [Id.run]
    cases lookup QueryLocale r.Query <;> cases lookup QueryLanguage r.Query <;>
      cases lookup QueryRegion r.Query <;> simp <;> split_ifs <;> simp_all
  exact ⟨h, by rw [DeduceLanguage, h]⟩

theorem candidates_eq_byValue (toUpper : Str → Str) (r : Request) :
    DeduceLanguage.candidates toUpper r = Spec.candidatesByValue toUpper r := by
  unfold DeduceLanguage.candidates Spec.candidatesByValue
  simp only [Id.run]
  cases lookup QueryLocale r.Query <;> cases lookup QueryLanguage r.Query <;>
    cases lookup QueryRegion r.Query <;> simp <;> split_ifs <;> simp_all

/-- C11: for every request, `DeduceLanguage` hands the matcher, whatever the matcher, the
list it builds; that list has at least one element and its last element is `und-` followed
by `RemapCountryCode (GeoipCountryCode request)`. -/
theorem candidates_never_empty (toUpper : Str → Str) (r : Request) :
    (∀ matcher : Matcher,
      DeduceLanguage toUpper matcher r = matcher (DeduceLanguage.candidates toUpper r)) ∧
    1 ≤ (DeduceLanguage.candidates toUpper r).length ∧
    (DeduceLanguage.candidates toUpper r).getLast? =
      some ("und-".toList ++ RemapCountryCode toUpper (GeoipCountryCode r)) := by
  refine ⟨fun _ => rfl, ?_⟩
  rw [candidates_eq_byValue]
  unfold Spec.candidatesByValue
  constructor
  · simp only [List.length_append, List.length_singleton]
    omega
  · simp only [List.getLast?_append, List.getLast?_singleton]
    rfl

theorem GeoipCountryCode_congr (r₁ r₂ : Request)
    (hg : ∀ h ∈ GeoipCountryHeaders, r₁.Header.Get h = r₂.Header.Get h) :
    GeoipCountryCode r₁ = GeoipCountryCode r₂ := by
  have h1 := hg "CloudFront-Viewer-Country".toList (by simp [GeoipCountryHeaders])
  have h2 := hg "CF-IPCountry".toList (by simp [GeoipCountryHeaders])
  have h3 := hg "GEOIP_COUNTRY_CODE".toList (by simp [GeoipCountryHeaders])
  simp only [GeoipCountryCode, GeoipCountryHeaders, GeoipCountryCode.loop, h1, h2, h3]

/-- C12: for every matcher and every two requests that agree on the query parameters, the
Accept-Language header and the geoIP country headers, whatever their X-Locale header, their
X-Delocalized-Path header, their cookies and their path, `DeduceLanguage` builds the same
candidate list and returns the same tag. -/
theorem deduction_ignores_resolved_locale (toUpper : Str → Str) (matcher : Matcher)
    (r₁ r₂ : Request)
    (hq : r₁.Query = r₂.Query)
    (ha : r₁.Header.Get "Accept-Language".toList = r₂.Header.Get "Accept-Language".toList)
    (hg : ∀ h ∈ GeoipCountryHeaders, r₁.Header.Get h = r₂.Header.Get h) :
    DeduceLanguage.candidates toUpper r₁ = DeduceLanguage.candidates toUpper r₂ ∧
    DeduceLanguage toUpper matcher r₁ = DeduceLanguage toUpper matcher r₂ := by
  have h : DeduceLanguage.candidates toUpper r₁ = DeduceLanguage.candidates toUpper r₂ := by
    rw [candidates_eq_byValue, candidates_eq_byValue]
    simp only [Spec.candidatesByValue, hq, ha, GeoipCountryCode_congr r₁ r₂ hg]
  exact ⟨h, by simp only [DeduceLanguage, h]⟩

/-- C12 (witness): two requests with the query `lang=fr` and the header
`CF-IPCountry: JE`; the second also carries X-Locale, X-Delocalized-Path, a `locale`
cookie and another path. -/
theorem deduction_ignores_resolved_locale_witness :
    DeduceLanguage.candidates asciiToUpper
        (request "/" [("lang", "fr")] [("CF-IPCountry", "JE")] [])
      = DeduceLanguage.candidates asciiToUpper
        (request "/de-DE/x" [("lang", "fr")]
          [("X-Locale", "de-DE"), ("X-Delocalized-Path", "/x"), ("CF-IPCountry", "JE")]
          [("locale", "en-US")]) ∧
    DeduceLanguage asciiToUpper demoMatcher
        (request "/" [("lang", "fr")] [("CF-IPCountry", "JE")] [])
      = DeduceLanguage asciiToUpper demoMatcher
        (request "/de-DE/x" [("lang", "fr")]
          [("X-Locale", "de-DE"), ("X-Delocalized-Path", "/x"), ("CF-IPCountry", "JE")]
          [("locale", "en-US")]) :=
  deduction_ignores_resolved_locale asciiToUpper demoMatcher
    (request "/" [("lang", "fr")] [("CF-IPCountry", "JE")] [])
    (request "/de-DE/x" [("lang", "fr")]
      [("X-Locale", "de-DE"), ("X-Delocalized-Path", "/x"), ("CF-IPCountry", "JE")]
      [("locale", "en-US")])
    (by decide) (by decide) (by decide)

/-! ## Signals -/

/-- C13 (as stated, refuted): a request without any geoIP header.  The sentinel returned
is `unk`, not `unknown`. -/
theorem geoip_sentinel_counterexample :
    (∀ h ∈ GeoipCountryHeaders, (request "/" [] [] []).Header.Get h = []) ∧
    Spec.firstGeoipHeader "unknown".toList (request "/" [] [] []) = "unknown".toList ∧
    GeoipCountryCode (request "/" [] [] []) = "unk".toList ∧
    GeoipCountryCode (request "/" [] [] []) ≠ "unknown".toList := by
  decide

/-- C13 (amended): for every request, `GeoipCountryCode` returns the value of the first
header, in the order CloudFront-Viewer-Country, CF-IPCountry, GEOIP_COUNTRY_CODE, whose
value is non-empty, and returns the sentinel string `unk` when none of them has a non-empty
value; the result is never the empty string. -/
theorem geoip_country_extraction (r : Request) :
    GeoipCountryHeaders = ["CloudFront-Viewer-Country".toList, "CF-IPCountry".toList,
      "GEOIP_COUNTRY_CODE".toList] ∧
    GeoipCountryCode r = Spec.firstGeoipHeader "unk".toList r ∧
    GeoipCountryCode r ≠ [] := by
  have key : ∀ hs : List Str, GeoipCountryCode.loop r hs =
      (match (hs.map r.Header.Get).find? (fun v => decide (v ≠ [])) with
        | some v => v
        | none => "unk".toList) ∧ GeoipCountryCode.loop r hs ≠ [] := by
    intro hs
    induction hs with
    | nil =>
      refine ⟨rfl, ?_⟩
      simp [GeoipCountryCode.loop]
    | cons h rest ih =>
      by_cases hv : r.Header.Get h = []
      · simp only [GeoipCountryCode.loop, hv, ne_eq, not_true_eq_false, if_false,
          List.map_cons, List.find?_cons, decide_False]
        exact ih
      · refine ⟨?_, ?_⟩
        · simp only [GeoipCountryCode.loop, ne_eq, hv, not_false_eq_true, if_true,
            List.map_cons, List.find?_cons, decide_True]
        · simp only [GeoipCountryCode.loop, ne_eq, hv, not_false_eq_true, if_true]
  exact ⟨rfl, (key GeoipCountryHeaders).1, (key GeoipCountryHeaders).2⟩

/-! ## Country normalization

`strings.ToUpper` is a parameter; the two facts about it that the normalization relies on
are hypotheses: it is idempotent, and it leaves the governing codes GB, US and AU as they
are.  `asciiToUpper` has both. -/

theorem Char_toUpper_toUpper (c : Char) : c.toUpper.toUpper = c.toUpper := by
  unfold Char.toUpper
  simp only []
  by_cases h : c.toNat ≥ 97 ∧ c.toNat ≤ 122
  · rw [if_pos h]
    generalize c.toNat = n at h
    obtain ⟨h1, h2⟩ := h
    interval_cases n <;> decide
  · rw [if_neg h, if_neg h]

theorem asciiToUpper_idem (s : Str) : asciiToUpper (asciiToUpper s) = asciiToUpper s := by
  simp only [asciiToUpper, List.map_map]
  apply List.map_congr_left
  intro c _
  exact Char_toUpper_toUpper c

theorem RemapCountryCode_groups (toUpper : Str → Str) (c : Str) :
    RemapCountryCode toUpper c =
      if toUpper c ∈ RemapCountryCode.groupGB then "GB".toList
      else if toUpper c ∈ RemapCountryCode.groupUS then "US".toList
      else if toUpper c ∈ RemapCountryCode.groupAU then "AU".toList
      else toUpper c := rfl

theorem remap_of_mem_groupGB (toUpper : Str → Str) (c : Str)
    (h : toUpper c ∈ RemapCountryCode.groupGB) : RemapCountryCode toUpper c = "GB".toList := by
  rw [RemapCountryCode_groups]
  rw [if_pos h]

theorem remap_of_mem_groupUS (toUpper : Str → Str) (c : Str)
    (h : toUpper c ∈ RemapCountryCode.groupUS) : RemapCountryCode toUpper c = "US".toList := by
  have hd : ∀ x ∈ RemapCountryCode.groupUS, x ∉ RemapCountryCode.groupGB := by decide
  rw [RemapCountryCode_groups]
  rw [if_neg (hd _ h), if_pos h]

theorem remap_of_mem_groupAU (toUpper : Str → Str) (c : Str)
    (h : toUpper c ∈ RemapCountryCode.groupAU) : RemapCountryCode toUpper c = "AU".toList := by
  have hd : ∀ x ∈ RemapCountryCode.groupAU,
      x ∉ RemapCountryCode.groupGB ∧ x ∉ RemapCountryCode.groupUS := by decide
  rw [RemapCountryCode_groups]
  rw [if_neg (hd _ h).1, if_neg (hd _ h).2, if_pos h]

theorem remap_of_not_mem (toUpper : Str → Str) (c : Str)
    (h1 : toUpper c ∉ RemapCountryCode.groupGB) (h2 : toUpper c ∉ RemapCountryCode.groupUS)
    (h3 : toUpper c ∉ RemapCountryCode.groupAU) : RemapCountryCode toUpper c = toUpper c := by
  rw [RemapCountryCode_groups]
  rw [if_neg h1, if_neg h2, if_neg h3]

theorem remap_governing (toUpper : Str → Str)
    (hfix : ∀ g ∈ ["GB".toList, "US".toList, "AU".toList], toUpper g = g) :
    RemapCountryCode toUpper "GB".toList = "GB".toList ∧
    RemapCountryCode toUpper "US".toList = "US".toList ∧
    RemapCountryCode toUpper "AU".toList = "AU".toList := by
  refine ⟨remap_of_mem_groupGB _ _ ?_, remap_of_mem_groupUS _ _ ?_,
    remap_of_mem_groupAU _ _ ?_⟩
  · rw [hfix _ (by decide)]; decide
  · rw [hfix _ (by decide)]; decide
  · rw [hfix _ (by decide)]; decide

theorem remap_remap (toUpper : Str → Str)
    (hidem : ∀ s, toUpper (toUpper s) = toUpper s)
    (hfix : ∀ g ∈ ["GB".toList, "US".toList, "AU".toList], toUpper g = g) (c : Str) :
    RemapCountryCode toUpper (RemapCountryCode toUpper c) = RemapCountryCode toUpper c := by
  obtain ⟨hGB, hUS, hAU⟩ := remap_governing toUpper hfix
  by_cases h1 : toUpper c ∈ RemapCountryCode.groupGB
  · rw [remap_of_mem_groupGB _ _ h1, hGB]
  · by_cases h2 : toUpper c ∈ RemapCountryCode.groupUS
    · rw [remap_of_mem_groupUS _ _ h2, hUS]
    · by_cases h3 : toUpper c ∈ RemapCountryCode.groupAU
      · rw [remap_of_mem_groupAU _ _ h3, hAU]
      · rw [remap_of_not_mem _ _ h1 h2 h3]
        exact remap_of_not_mem _ _ (by rwa [hidem]) (by rwa [hidem]) (by rwa [hidem])
          |>.trans (hidem c)

/-- C14: for every string `c`, `RemapCountryCode (RemapCountryCode c) = RemapCountryCode c`,
for every `strings.ToUpper` that is idempotent and leaves GB, US and AU unchanged. -/
theorem remap_idempotent (toUpper : Str → Str)
    (hidem : ∀ s, toUpper (toUpper s) = toUpper s)
    (hfix : ∀ g ∈ ["GB".toList, "US".toList, "AU".toList], toUpper g = g) (c : Str) :
    RemapCountryCode toUpper (RemapCountryCode toUpper c) = RemapCountryCode toUpper c :=
  remap_remap toUpper hidem hfix c

/-- C14 (witness): the ASCII upper-casing and the code `je`. -/
theorem remap_idempotent_witness :
    RemapCountryCode asciiToUpper (RemapCountryCode asciiToUpper "je".toList)
      = RemapCountryCode asciiToUpper "je".toList :=
  remap_idempotent asciiToUpper asciiToUpper_idem (by decide) "je".toList

/-- C15: for every string `c`, `RemapCountryCode c` is the upper-cased `c` when the
upper-cased `c` belongs to none of the three groups, and otherwise the governing code of
the group it belongs to (GB, US or AU); the three groups are pairwise disjoint and hold
their governing codes, each governing code maps to itself, and the result depends on `c`
through its upper-cased form only: two strings with the same upper-cased form, and a
string and its upper-cased form, are mapped alike.  `strings.ToUpper` is any function that
is idempotent and leaves GB, US and AU unchanged. -/
theorem country_grouping (toUpper : Str → Str)
    (hidem : ∀ s, toUpper (toUpper s) = toUpper s)
    (hfix : ∀ g ∈ ["GB".toList, "US".toList, "AU".toList], toUpper g = g) (c c' : Str) :
    (toUpper c ∉ RemapCountryCode.groupGB → toUpper c ∉ RemapCountryCode.groupUS →
      toUpper c ∉ RemapCountryCode.groupAU → RemapCountryCode toUpper c = toUpper c) ∧
    (toUpper c ∈ RemapCountryCode.groupGB → RemapCountryCode toUpper c = "GB".toList) ∧
    (toUpper c ∈ RemapCountryCode.groupUS → RemapCountryCode toUpper c = "US".toList) ∧
    (toUpper c ∈ RemapCountryCode.groupAU → RemapCountryCode toUpper c = "AU".toList) ∧
    ((∀ x ∈ RemapCountryCode.groupGB, x ∉ RemapCountryCode.groupUS) ∧
      (∀ x ∈ RemapCountryCode.groupGB, x ∉ RemapCountryCode.groupAU) ∧
      (∀ x ∈ RemapCountryCode.groupUS, x ∉ RemapCountryCode.groupAU)) ∧
    ("GB".toList ∈ RemapCountryCode.groupGB ∧ "US".toList ∈ RemapCountryCode.groupUS ∧
      "AU".toList ∈ RemapCountryCode.groupAU) ∧
    (RemapCountryCode toUpper "GB".toList = "GB".toList ∧
      RemapCountryCode toUpper "US".toList = "US".toList ∧
      RemapCountryCode toUpper "AU".toList = "AU".toList) ∧
    (toUpper c = toUpper c' → RemapCountryCode toUpper c = RemapCountryCode toUpper c') ∧
    RemapCountryCode toUpper (toUpper c) = RemapCountryCode toUpper c := by
  refine ⟨remap_of_not_mem _ _, remap_of_mem_groupGB _ _, remap_of_mem_groupUS _ _,
    remap_of_mem_groupAU _ _, ⟨by decide, by decide, by decide⟩,
    ⟨by decide, by decide, by decide⟩, remap_governing toUpper hfix, ?_, ?_⟩
  · intro h
    simp only [RemapCountryCode, h]
  · simp only [RemapCountryCode, hidem]

/-- C15 (witness): with the ASCII upper-casing, `JE` and `je` both give `GB`. -/
theorem country_grouping_witness :
    RemapCountryCode asciiToUpper "JE".toList = "GB".toList ∧
    RemapCountryCode asciiToUpper "je".toList = "GB".toList ∧
    RemapCountryCode asciiToUpper "je".toList = RemapCountryCode asciiToUpper "JE".toList :=
  ⟨(country_grouping asciiToUpper asciiToUpper_idem (by decide) "JE".toList
      "je".toList).2.1 (by decide),
   (country_grouping asciiToUpper asciiToUpper_idem (by decide) "je".toList
      "JE".toList).2.1 (by decide),
   (country_grouping asciiToUpper asciiToUpper_idem (by decide) "je".toList
      "JE".toList).2.2.2.2.2.2.2.1 (by decide)⟩

/-! ## Stripping, and the path after the cascade -/

theorem Handler_not_redirected (toUpper : Str → Str) (locales : List Str)
    (matcher : Matcher) (w : ResponseWriter) (r : Request)
    (h : (Handler toUpper locales matcher w r).w.Redirected = none) :
    ∃ locale, (Handler toUpper locales matcher w r).next =
      some (Handler.passedOn r locale (trimPrefixes r.Path (Handler.pathPrefixes locales))) := by
  rw [Handler_stages] at h ⊢
  revert h
  cases lookup QueryLocale r.Query <;> cases r.Cookie CookieName <;>
    simp only [] <;> split_ifs <;> intro h <;>
    first
      | exact ⟨_, rfl⟩
      | exact absurd h (by simp [Redirect])

/-- C16 (failing input): supported set [fr], path `/fr`, no query, no cookie.  `Handler`
passes the request on with the path `/fr` and the empty string recorded as the delocalized
path; `StripLocalePrefix` then leaves the path `/fr` as it is, the locale part still in it,
where the claim and the comments of the source have it set to the recorded delocalized
path. -/
theorem strip_keeps_locale_part :
    (Handler asciiToUpper ["fr".toList] demoMatcher fresh
        (request "/fr" [] [] [])).w.Redirected = none ∧
    (Handler asciiToUpper ["fr".toList] demoMatcher fresh
        (request "/fr" [] [] [])).next.map GetRequestDelocalizedPath = some [] ∧
    ((Handler asciiToUpper ["fr".toList] demoMatcher fresh
        (request "/fr" [] [] [])).next.bind
          (fun x => (StripLocalePrefix fresh x).next)).map (fun x => x.Path)
      = some "/fr".toList := by
  decide

/-- Stripping where the guard of `StripLocalePrefix` lets it act: for every request that
`Handler` passes on without redirect and whose delocalized path (the original path without
its matched supported-locale prefix) is non-empty, applying `StripLocalePrefix` afterwards
sets the path to the recorded delocalized path, and when the original path had no
supported-locale prefix the resulting path equals the original path. -/
theorem strip_restores_delocalized_path (toUpper : Str → Str) (locales : List Str)
    (matcher : Matcher) (w : ResponseWriter) (r : Request)
    (h : (Handler toUpper locales matcher w r).w.Redirected = none)
    (hne : trimPrefixes r.Path (Handler.pathPrefixes locales) ≠ []) :
    ∃ r' r'', (Handler toUpper locales matcher w r).next = some r' ∧
      (StripLocalePrefix (Handler toUpper locales matcher w r).w r').next = some r'' ∧
      r''.Path = GetRequestDelocalizedPath r' ∧
      r''.Path = trimPrefixes r.Path (Handler.pathPrefixes locales) ∧
      (matchPrefix r.Path (Handler.pathPrefixes locales) = none → r''.Path = r.Path) := by
  obtain ⟨locale, hnext⟩ := Handler_not_redirected toUpper locales matcher w r h
  have hd := passedOn_delocalized r locale (trimPrefixes r.Path (Handler.pathPrefixes locales))
  refine ⟨_, _, hnext, rfl, ?_, ?_, ?_⟩
  · simp only [hd, ne_eq, hne, not_false_eq_true, if_true]
  · simp only [hd, ne_eq, hne, not_false_eq_true, if_true]
  · intro hm
    simp only [hd, ne_eq, hne, not_false_eq_true, if_true]
    exact trimPrefixes_of_none _ _ hm

/-- Stripping at path `/fr/page`, supported set [fr, en-US]: the path becomes `/page`. -/
theorem strip_restores_delocalized_path_witness :
    ∃ r' r'', (Handler asciiToUpper ["fr".toList, "en-US".toList] demoMatcher fresh
        (request "/fr/page" [] [] [])).next = some r' ∧
      (StripLocalePrefix (Handler asciiToUpper ["fr".toList, "en-US".toList] demoMatcher fresh
        (request "/fr/page" [] [] [])).w r').next = some r'' ∧
      r''.Path = GetRequestDelocalizedPath r' ∧
      r''.Path = "/page".toList ∧
      (matchPrefix (request "/fr/page" [] [] []).Path
          (Handler.pathPrefixes ["fr".toList, "en-US".toList]) = none →
        r''.Path = (request "/fr/page" [] [] []).Path) :=
  strip_restores_delocalized_path asciiToUpper ["fr".toList, "en-US".toList] demoMatcher
    fresh (request "/fr/page" [] [] []) (by decide) (by decide)

/-- C17: for every supported set of non-empty locales and every request whose path has a
supported-locale prefix and that `Handler` does not redirect, a request is handed to the
next handler and its path is identical to the original request path. -/
theorem path_resolution_keeps_url (toUpper : Str → Str) (locales : List Str)
    (matcher : Matcher) (w : ResponseWriter) (r : Request)
    (hS : ([] : Str) ∉ locales)
    (hp : ∃ l ∈ locales, HasPrefix r.Path ("/".toList ++ l) = true)
    (h : (Handler toUpper locales matcher w r).w.Redirected = none) :
    ∃ r', (Handler toUpper locales matcher w r).next = some r' ∧ r'.Path = r.Path := by
  obtain ⟨l₀, hl₀, hpre₀⟩ := hp
  cases hm : matchPrefix r.Path (Handler.pathPrefixes locales) with
  | none =>
    have := (matchPrefix_eq_none_iff _ _).1 hm _ ((mem_pathPrefixes locales l₀).2 hl₀)
    rw [hpre₀] at this
    exact absurd this (by decide)
  | some p =>
    obtain ⟨hmem, hpre⟩ := matchPrefix_some _ _ _ hm
    simp only [Handler.pathPrefixes, List.mem_map] at hmem
    obtain ⟨l, hl, rfl⟩ := hmem
    have hne : l ≠ [] := fun e => hS (e ▸ hl)
    have hpl := pathLocale_of_match locales r.Path l hm
    have hd := trimPrefixes_of_match _ _ _ hm
    have hpath : (Handler.passedOn r l (TrimPrefix r.Path ("/".toList ++ l))).Path = r.Path := by
      rw [passedOn_path, append_TrimPrefix _ _ hpre]
    rw [Handler_stages] at h ⊢
    revert h
    simp only [hpl, hd, ne_eq, hne, not_false_eq_true, if_true]
    cases lookup QueryLocale r.Query with
    | none => exact fun _ => ⟨_, rfl, hpath⟩
    | some q =>
      simp only []
      generalize Replace q.1 '_' '-' = v
      by_cases hc : contains locales v = true
      · by_cases hv : v = l
        · subst hv
          simp only [hc, ne_eq, hne, not_true_eq_false, not_false_eq_true, if_true, if_false]
          exact fun _ => ⟨_, rfl, hpath⟩
        · simp only [hc, ne_eq, hv, not_false_eq_true, if_true]
          intro h
          exact absurd h (by simp [Redirect])
      · simp only [hc, Bool.false_eq_true, if_false]
        exact fun _ => ⟨_, rfl, hpath⟩

/-- C17 (witness): path `/en-GB/help`, query `locale=en_GB`, supported set [en-US, en-GB]. -/
theorem path_resolution_keeps_url_witness :
    ∃ r', (Handler asciiToUpper ["en-US".toList, "en-GB".toList] demoMatcher fresh
        (request "/en-GB/help" [("locale", "en_GB")] [] [])).next = some r' ∧
      r'.Path = "/en-GB/help".toList :=
  path_resolution_keeps_url asciiToUpper ["en-US".toList, "en-GB".toList] demoMatcher fresh
    (request "/en-GB/help" [("locale", "en_GB")] [] []) (by decide)
    ⟨"en-GB".toList, by decide, by decide⟩ (by decide)

theorem HasPrefix_iff (s p : Str) : HasPrefix s p = true ↔ p <+: s := by
  simp [HasPrefix]

theorem matchPrefix_of_no_proper_prefix (locales : List Str) (c path : Str)
    (hS : ∀ a ∈ locales, ∀ b ∈ locales, HasPrefix b a = true → a = b)
    (hc : c ∈ locales) (hpre : HasPrefix path ("/".toList ++ c) = true) :
    matchPrefix path (Handler.pathPrefixes locales) = some ("/".toList ++ c) := by
  cases hm : matchPrefix path (Handler.pathPrefixes locales) with
  | none =>
    have := (matchPrefix_eq_none_iff _ _).1 hm _ ((mem_pathPrefixes locales c).2 hc)
    rw [hpre] at this
    exact absurd this (by decide)
  | some p =>
    obtain ⟨hmem, hp⟩ := matchPrefix_some _ _ _ hm
    simp only [Handler.pathPrefixes, List.mem_map] at hmem
    obtain ⟨l, hl, rfl⟩ := hmem
    have h1 : ("/".toList ++ l) <+: path := (HasPrefix_iff _ _).1 hp
    have h2 : ("/".toList ++ c) <+: path := (HasPrefix_iff _ _).1 hpre
    have hlc : l = c := by
      rcases List.prefix_or_prefix_of_prefix h1 h2 with h | h
      · have h' : l <+: c := by
          simpa using h
        exact hS l hl c hc ((HasPrefix_iff _ _).2 h')
      · have h' : c <+: l := by
          simpa using h
        exact (hS c hc l hl ((HasPrefix_iff _ _).2 h')).symm
    rw [hlc]

/-- C18 (as stated, refuted): supported set [fr, en-US], path `/a//b`, cookie
`locale=en-US`, no query.  No locale of the set is a prefix of another and `Handler`
redirects on account of the cookie, to `/en-US/a//b`; `http.Redirect` sends the client to
the cleaned path `/en-US/a/b`, where the request is passed on with the delocalized path
`/a/b`, which is not the original path `/a//b`. -/
theorem cookie_redirect_counterexample :
    (∀ a ∈ ["fr".toList, "en-US".toList], ∀ b ∈ ["fr".toList, "en-US".toList],
      HasPrefix b a = true → a = b) ∧
    "en-US".toList ∈ ["fr".toList, "en-US".toList] ∧
    lookup QueryLocale (request "/a//b" [] [] [("locale", "en-US")]).Query = none ∧
    (Handler asciiToUpper ["fr".toList, "en-US".toList] demoMatcher fresh
        (request "/a//b" [] [] [("locale", "en-US")])).w.Redirected
      = some ("/en-US/a//b".toList, 302) ∧
    redirectLocation "/en-US/a//b".toList = "/en-US/a/b".toList ∧
    (Handler asciiToUpper ["fr".toList, "en-US".toList] demoMatcher fresh
        (atPath (request "/a//b" [] [] [("locale", "en-US")])
          (redirectLocation "/en-US/a//b".toList))).next.map GetRequestDelocalizedPath
      = some "/a/b".toList ∧
    "/a/b".toList ≠ (request "/a//b" [] [] [("locale", "en-US")]).Path := by
  decide

/-- C18 (amended): for every supported set in which no locale is a prefix of another, every
cookie value `c` in the set and every request without a `locale` query parameter that
`Handler` redirects (so on account of the cookie), the redirect is a 302 to some target;
and when the path the client is sent to (`location`, what `http.Redirect` makes of the
target) is the target itself, the same request re-issued at that path is not redirected
(the response is left untouched) and is passed on with resolved locale `c` and with the
delocalized path equal to the first request's original path. -/
theorem cookie_redirect_converges (toUpper : Str → Str) (locales : List Str)
    (matcher : Matcher) (location : Str → Str) (w w' : ResponseWriter) (r : Request) (c : Str)
    (hS : ∀ a ∈ locales, ∀ b ∈ locales, HasPrefix b a = true → a = b)
    (hc : c ∈ locales)
    (hq : lookup QueryLocale r.Query = none)
    (hcookie : r.Cookie CookieName = some c)
    (hred : (Handler toUpper locales matcher w r).next = none)
    (hloc : location ("/".toList ++ c ++ r.Path) = "/".toList ++ c ++ r.Path) :
    ∃ target, (Handler toUpper locales matcher w r).w.Redirected = some (target, 302) ∧
      location target = target ∧
      (Handler toUpper locales matcher w' (atPath r (location target))).w = w' ∧
      ∃ r', (Handler toUpper locales matcher w' (atPath r (location target))).next = some r' ∧
        GetRequestLocale r' = c ∧ GetRequestDelocalizedPath r' = r.Path := by
  -- the first request: the path locale is empty and the cookie is not
  have hpl : Handler.pathLocale locales r.Path = [] := by
    by_contra hne
    rw [Handler_stages] at hred
    simp [hq, hne] at hred
  have hcne : c ≠ [] := by
    intro hce
    rw [Handler_stages] at hred
    simp [hq, hpl, hcookie, hce] at hred
  have hm : matchPrefix r.Path (Handler.pathPrefixes locales) = none := by
    cases hm : matchPrefix r.Path (Handler.pathPrefixes locales) with
    | none => rfl
    | some p =>
      exfalso
      have hmem := pathLocale_mem locales r.Path (by rw [hm]; exact Option.noConfusion)
      rw [hpl] at hmem
      exact hcne (hS [] hmem c hc (by simp [HasPrefix])).symm
  have hd := trimPrefixes_of_none _ _ hm
  refine ⟨"/".toList ++ c ++ r.Path, ?_, hloc, ?_⟩
  · rw [Handler_stages]
    simp only [hq, hpl, hd, hcookie, ne_eq, hcne, not_true_eq_false, not_false_eq_true,
      if_true, if_false]
    rfl
  -- the request re-issued where the client is sent
  rw [hloc]
  have hq2 : lookup QueryLocale (atPath r ("/".toList ++ c ++ r.Path)).Query = none := hq
  have hpath2 : (atPath r ("/".toList ++ c ++ r.Path)).Path = "/".toList ++ c ++ r.Path := rfl
  have hm2 : matchPrefix (atPath r ("/".toList ++ c ++ r.Path)).Path
      (Handler.pathPrefixes locales) = some ("/".toList ++ c) := by
    apply matchPrefix_of_no_proper_prefix locales c _ hS hc
    rw [hpath2, HasPrefix_iff]
    exact List.prefix_append _ _
  have hpl2 := pathLocale_of_match locales _ c hm2
  have hd2 : trimPrefixes (atPath r ("/".toList ++ c ++ r.Path)).Path
      (Handler.pathPrefixes locales) = r.Path := by
    rw [trimPrefixes_of_match _ _ _ hm2, hpath2, TrimPrefix_append]
  rw [Handler_stages]
  simp only [hq2, hpl2, hd2, ne_eq, hcne, not_false_eq_true, if_true]
  exact ⟨trivial, _, rfl, passedOn_locale _ _ _, passedOn_delocalized _ _ _⟩

/-- C18 (witness): supported set [fr, en-US], path `/page`, cookie `locale=en-US`: the
redirect goes to `/en-US/page`, which `http.Redirect` leaves as it is, and there the
request is passed on with locale `en-US` and delocalized path `/page`. -/
theorem cookie_redirect_converges_witness :
    ∃ target, (Handler asciiToUpper ["fr".toList, "en-US".toList] demoMatcher fresh
        (request "/page" [] [] [("locale", "en-US")])).w.Redirected = some (target, 302) ∧
      redirectLocation target = target ∧
      (Handler asciiToUpper ["fr".toList, "en-US".toList] demoMatcher fresh
        (atPath (request "/page" [] [] [("locale", "en-US")])
          (redirectLocation target))).w = fresh ∧
      ∃ r', (Handler asciiToUpper ["fr".toList, "en-US".toList] demoMatcher fresh
        (atPath (request "/page" [] [] [("locale", "en-US")])
          (redirectLocation target))).next = some r' ∧
        GetRequestLocale r' = "en-US".toList ∧
        GetRequestDelocalizedPath r' = "/page".toList :=
  cookie_redirect_converges asciiToUpper ["fr".toList, "en-US".toList] demoMatcher
    redirectLocation fresh fresh (request "/page" [] [] [("locale", "en-US")])
    "en-US".toList (by decide) (by decide) (by decide) (by decide) (by decide) (by decide)

/-! ## The tags of the matcher -/

theorem NewMatcher_loop_eq (locales : List Str) (ts acc : List Tag) :
    NewMatcher.loop locales ts acc
      = acc ++ ts.filter (fun t => decide (BaseRegion t ∈ locales)) := by
  induction ts generalizing acc with
  | nil => simp [NewMatcher.loop]
  | cons t rest ih =>
    by_cases h : BaseRegion t ∈ locales
    · have hc := (contains_iff locales _).2 h
      rw [NewMatcher.loop, if_pos hc, ih, List.filter_cons_of_pos (by simpa using h)]
      simp
    · have hc := (contains_eq_false_iff locales _).2 h
      simp only [NewMatcher.loop, hc, Bool.false_eq_true, if_false]
      rw [ih, List.filter_cons_of_neg (by simpa using h)]

theorem NewMatcher_tags_eq (locales : List Str) :
    NewMatcher.tags locales
      = SuggestedTags.filter (fun t => decide (BaseRegion t ∈ locales)) := by
  rw [NewMatcher.tags, NewMatcher_loop_eq, List.nil_append]

/-- C19: for every list of locales, the tag list `NewMatcher` hands to the matcher is
exactly the sublist of `SuggestedTags`, in `SuggestedTags` order, of those tags `t` for
which `BaseRegion t` is a member of `locales`: `NewMatcher` is `language.NewMatcher` applied
to that list.  So a list with the same members (reordered, with duplicates) gives the same
tags and the same matcher, and the locales that are not the `BaseRegion` of any suggested
tag contribute nothing. -/
theorem matcher_tag_ranking (newMatcher : List Tag → Matcher) (locales locales' : List Str)
    (h : ∀ l, l ∈ locales ↔ l ∈ locales') :
    NewMatcher newMatcher locales
      = newMatcher (SuggestedTags.filter (fun t => decide (BaseRegion t ∈ locales))) ∧
    NewMatcher.tags locales
      = SuggestedTags.filter (fun t => decide (BaseRegion t ∈ locales)) ∧
    List.Sublist (NewMatcher.tags locales) SuggestedTags ∧
    NewMatcher.tags locales' = NewMatcher.tags locales ∧
    NewMatcher newMatcher locales' = NewMatcher newMatcher locales ∧
    NewMatcher.tags (locales.filter (fun l => decide (l ∈ SuggestedTags.map BaseRegion)))
      = NewMatcher.tags locales ∧
    NewMatcher newMatcher
        (locales.filter (fun l => decide (l ∈ SuggestedTags.map BaseRegion)))
      = NewMatcher newMatcher locales := by
  have h1 : NewMatcher.tags locales' = NewMatcher.tags locales := by
    rw [NewMatcher_tags_eq, NewMatcher_tags_eq]
    apply List.filter_congr
    intro t _
    simp only [h]
  have h2 : NewMatcher.tags
      (locales.filter (fun l => decide (l ∈ SuggestedTags.map BaseRegion)))
        = NewMatcher.tags locales := by
    rw [NewMatcher_tags_eq, NewMatcher_tags_eq]
    apply List.filter_congr
    intro t ht
    have hmem : BaseRegion t ∈ SuggestedTags.map BaseRegion := List.mem_map_of_mem _ ht
    simp only [List.mem_filter, hmem, decide_True, and_true]
  refine ⟨?_, NewMatcher_tags_eq locales, ?_, h1, ?_, h2, ?_⟩
  · rw [NewMatcher, NewMatcher_tags_eq]
  · rw [NewMatcher_tags_eq]
    exact List.filter_sublist _
  · simp only [NewMatcher, h1]
  · simp only [NewMatcher, h2]

/-- C19 (witness): [fr-CA, xx-XX, en-GB] and [en-GB, fr-CA, fr-CA, xx-XX] give the tags
en-GB, fr-CA, in the order of `SuggestedTags`, and `NewMatcher` is `language.NewMatcher`
applied to them. -/
theorem matcher_tag_ranking_witness :
    NewMatcher (fun tags _ => tags.headD { Base := [], Region := [] })
        ["fr-CA".toList, "xx-XX".toList, "en-GB".toList] []
      = { Base := "en".toList, Region := "GB".toList } ∧
    NewMatcher.tags ["fr-CA".toList, "xx-XX".toList, "en-GB".toList]
      = [{ Base := "en".toList, Region := "GB".toList },
         { Base := "fr".toList, Region := "CA".toList }] ∧
    NewMatcher.tags ["en-GB".toList, "fr-CA".toList, "fr-CA".toList, "xx-XX".toList]
      = NewMatcher.tags ["fr-CA".toList, "xx-XX".toList, "en-GB".toList] :=
  ⟨(congrFun (matcher_tag_ranking (fun tags _ => tags.headD { Base := [], Region := [] })
      ["fr-CA".toList, "xx-XX".toList, "en-GB".toList]
      ["en-GB".toList, "fr-CA".toList, "fr-CA".toList, "xx-XX".toList]
      (by intro l; simp only [List.mem_cons, List.mem_singleton, List.not_mem_nil]; tauto)).1
      []).trans (by decide),
   ((matcher_tag_ranking (fun _ => demoMatcher)
      ["fr-CA".toList, "xx-XX".toList, "en-GB".toList]
      ["en-GB".toList, "fr-CA".toList, "fr-CA".toList, "xx-XX".toList]
      (by intro l; simp only [List.mem_cons, List.mem_singleton, List.not_mem_nil]; tauto)
      ).2.1).trans (by decide),
   (matcher_tag_ranking (fun _ => demoMatcher)
      ["fr-CA".toList, "xx-XX".toList, "en-GB".toList]
      ["en-GB".toList, "fr-CA".toList, "fr-CA".toList, "xx-XX".toList]
      (by intro l; simp only [List.mem_cons, List.mem_singleton, List.not_mem_nil]; tauto)
      ).2.2.2.1⟩

end Locale
